import Mathlib

/-
Verification of the step-tracker / tool-checker core of speckit-js.

The development shallowly embeds the two collaborating components:

* `StepTracker` (src/core/StepTracker.ts; the draft src/core/step-tracker.ts
  has character-for-character identical add/update/maybeRefresh logic, with
  string-literal statuses instead of an enum) — an ordered list of steps,
  each with key, label, status and free-text detail, plus an optional
  refresh callback invoked after every mutation with its exceptions
  swallowed.
* `checkToolForTracker` (the which-based variant stored alongside
  src/core/step-tracker.ts) — a path probe reported through tracker updates.

JavaScript exceptions are embedded as `Except String`; a caller-supplied
refresh callback is a function that either returns or throws.  The numeric
component threaded next to the tracker counts how many times the callback
was actually invoked by the operation.  Mutation of the steps array is
value-passing here; a separate reference-level model (`JSTrackerState`)
makes object identity explicit where aliasing matters (`getAllSteps`).
-/

set_option autoImplicit false

namespace SpecKit

/-- Status values of a tracker step, from the `StepStatus` enum in
src/core/StepTracker.ts. -/
inductive StepStatus where
  | pending
  | running
  | done
  | error
  | skipped
deriving DecidableEq, Repr

instance : Inhabited StepStatus := ⟨StepStatus.pending⟩

/-- One checklist entry, from the `Step` interface in src/core/StepTracker.ts. -/
structure Step where
  key : String
  label : String
  status : StepStatus
  detail : String
deriving DecidableEq, Repr

instance : Inhabited Step :=
  ⟨{ key := "", label := "", status := StepStatus.pending, detail := "" }⟩

/-- Type of the refresh callback: it takes no argument and either returns
normally or throws (`RefreshCallback = () => void` in the source). -/
def RefreshCallback : Type := Unit → Except String Unit

/-- Tracker state: title, ordered step list, optional refresh callback
(fields `title`, `steps`, `refreshCallback` of the `StepTracker` class). -/
structure StepTracker where
  title : String
  steps : List Step
  refreshCallback : Option RefreshCallback

/-- Embedding of the private `maybeRefresh` (StepTracker.ts lines 128-136):
invoke the callback when one is attached, and swallow any exception it
raises (the try/catch with an empty catch body).  The returned number is
how many times the callback was invoked. -/
def maybeRefresh (cb : Option RefreshCallback) : Except String Nat :=
  match cb with
  | none => Except.ok 0
  | some f =>
    match f () with
    | Except.ok _ => Except.ok 1
    | Except.error _ => Except.ok 1

/-- Steps-array effect of `add` (StepTracker.ts lines 60-71): append a fresh
pending step with empty detail unless a step with this key already exists
(`this.steps.find((s) => s.key === key)`). -/
def addSteps (steps : List Step) (key label : String) : List Step :=
  if (steps.find? (fun s => s.key == key)).isSome then
    steps
  else
    steps ++ [{ key := key, label := label, status := StepStatus.pending, detail := "" }]

/-- Steps-array effect of the private `update` (StepTracker.ts lines
104-123).  `find` locates the first step with this key and mutates it in
place: status is always overwritten, detail only when the argument is
non-empty (`if (detail)`).  When no step matches, a step whose label equals
the key is pushed at the end. -/
def updateSteps (key : String) (status : StepStatus) (detail : String) :
    List Step → List Step
  | [] => [{ key := key, label := key, status := status, detail := detail }]
  | s :: rest =>
    if s.key == key then
      { s with status := status,
               detail := if detail == "" then s.detail else detail } :: rest
    else
      s :: updateSteps key status detail rest

/-- Embedding of `StepTracker.add`, including the refresh hook: the hook runs
only on the branch that actually appends a step. -/
def StepTracker.add (t : StepTracker) (key label : String) :
    Except String (StepTracker × Nat) :=
  if (t.steps.find? (fun s => s.key == key)).isSome then
    Except.ok (t, 0)
  else
    match maybeRefresh t.refreshCallback with
    | Except.ok n =>
      Except.ok ({ t with steps :=
        t.steps ++ [{ key := key, label := label,
                      status := StepStatus.pending, detail := "" }] }, n)
    | Except.error e => Except.error e

/-- Embedding of the private `StepTracker.update`: mutate the steps array as
`updateSteps` does, then run the refresh hook (both branches of the source
call `maybeRefresh` exactly once). -/
def StepTracker.update (t : StepTracker) (key : String) (status : StepStatus)
    (detail : String) : Except String (StepTracker × Nat) :=
  match maybeRefresh t.refreshCallback with
  | Except.ok n =>
    Except.ok ({ t with steps := updateSteps key status detail t.steps }, n)
  | Except.error e => Except.error e

/-- Sugar `start(key, detail = "")` = `update(key, RUNNING, detail)`. -/
def StepTracker.start (t : StepTracker) (key : String) (detail : String := "") :
    Except String (StepTracker × Nat) :=
  t.update key StepStatus.running detail

/-- Sugar `complete(key, detail = "")` = `update(key, DONE, detail)`. -/
def StepTracker.complete (t : StepTracker) (key : String) (detail : String := "") :
    Except String (StepTracker × Nat) :=
  t.update key StepStatus.done detail

/-- Sugar `error(key, detail = "")` = `update(key, ERROR, detail)`. -/
def StepTracker.error (t : StepTracker) (key : String) (detail : String := "") :
    Except String (StepTracker × Nat) :=
  t.update key StepStatus.error detail

/-- Sugar `skip(key, detail = "")` = `update(key, SKIPPED, detail)`. -/
def StepTracker.skip (t : StepTracker) (key : String) (detail : String := "") :
    Except String (StepTracker × Nat) :=
  t.update key StepStatus.skipped detail

/-- Embedding of `clear` (lines 249-252): empty the steps array, then run the
refresh hook. -/
def StepTracker.clear (t : StepTracker) : Except String (StepTracker × Nat) :=
  match maybeRefresh t.refreshCallback with
  | Except.ok n => Except.ok ({ t with steps := [] }, n)
  | Except.error e => Except.error e

/-- Embedding of `setTitle` (lines 281-284): replace the title, then run the
refresh hook. -/
def StepTracker.setTitle (t : StepTracker) (title : String) :
    Except String (StepTracker × Nat) :=
  match maybeRefresh t.refreshCallback with
  | Except.ok n => Except.ok ({ t with title := title }, n)
  | Except.error e => Except.error e

/-- The steps array observed through a result of a tracker operation. -/
def stepsOf (r : Except String (StepTracker × Nat)) : Option (List Step) :=
  r.toOption.map (fun p => p.1.steps)

/-- The `find` over the steps array shared by `add` and `update`. -/
def findStep (steps : List Step) (key : String) : Option Step :=
  steps.find? (fun s => s.key == key)

/-- Embedding of `getStatusSymbol` (StepTracker.ts lines 141-159): symbol and
ANSI color per status.  The `default` arm of the source switch is dead code,
since the enum has exactly the five matched values. -/
def getStatusSymbol (status : StepStatus) : String × String :=
  match status with
  | StepStatus.done => ("●", "\x1b[32m")
  | StepStatus.pending => ("○", "\x1b[90m")
  | StepStatus.running => ("○", "\x1b[36m")
  | StepStatus.error => ("●", "\x1b[31m")
  | StepStatus.skipped => ("○", "\x1b[33m")

/-- Whitespace as the JavaScript `String.prototype.trim` sees it: the ASCII
whitespace characters plus no-break space and the BOM (the Unicode `Zs`
characters beyond no-break space are omitted as irrelevant here). -/
def isJSWhitespace (c : Char) : Bool :=
  c == ' ' || c == '\t' || c == '\n' || c == '\r' ||
  c == '\x0b' || c == '\x0c' || c == '\u00A0' || c == '\uFEFF'

/-- Embedding of the JavaScript `String.prototype.trim`: strip leading and
trailing whitespace. -/
def jsTrim (s : String) : String :=
  String.mk (((s.data.dropWhile isJSWhitespace).reverse.dropWhile isJSWhitespace).reverse)

/-- Rendered text of one step line — the loop body of `render` (StepTracker.ts
lines 171-191) without the tree-connector that is prepended at line 193. -/
def renderStepLine (step : Step) : String :=
  let sym := getStatusSymbol step.status
  let detailText := jsTrim step.detail
  if step.status == StepStatus.pending then
    if detailText != "" then
      sym.2 ++ sym.1 ++ " " ++ step.label ++ " (" ++ detailText ++ ")\x1b[0m"
    else
      sym.2 ++ sym.1 ++ " " ++ step.label ++ "\x1b[0m"
  else
    if detailText != "" then
      sym.2 ++ sym.1 ++ "\x1b[0m \x1b[37m" ++ step.label ++ "\x1b[0m \x1b[90m(" ++
        detailText ++ ")\x1b[0m"
    else
      sym.2 ++ sym.1 ++ "\x1b[0m \x1b[37m" ++ step.label ++ "\x1b[0m"

/-- First-occurrence replacement on character lists: the semantics of the
JavaScript `String.prototype.replace` with a plain-string pattern, used on the
last rendered line (StepTracker.ts line 199). -/
def replaceFirstAux (pat repl : List Char) : List Char → List Char
  | [] => if pat = [] then repl else []
  | c :: cs =>
    if pat.isPrefixOf (c :: cs) then
      repl ++ (c :: cs).drop pat.length
    else
      c :: replaceFirstAux pat repl cs

/-- First-occurrence replacement on strings. -/
def replaceFirst (s pat repl : String) : String :=
  String.mk (replaceFirstAux pat.data repl.data s.data)

/-- The lines array as built by `render` (StepTracker.ts lines 164-194)
before the connector fix-up: a highlighted title line, then one
branch-connector line per step in order. -/
def renderLinesRaw (t : StepTracker) : List String :=
  ("\x1b[36m" ++ t.title ++ "\x1b[0m")
    :: t.steps.map (fun step => "├── " ++ renderStepLine step)

/-- The lines array after the fix-up of the last tree connector (StepTracker.ts
lines 196-200): when there is more than one line, the first branch glyph of
the last line is rewritten to the terminator glyph. -/
def renderLines (t : StepTracker) : List String :=
  if (renderLinesRaw t).length > 1 then
    (renderLinesRaw t).dropLast ++
      [replaceFirst ((renderLinesRaw t).getLast?.getD "") "├──" "└──"]
  else
    renderLinesRaw t

/-- Embedding of `render` (line 202): join the lines with newlines. -/
def StepTracker.render (t : StepTracker) : String :=
  String.intercalate "\n" (renderLines t)

/-- Embedding of `checkToolForTracker` (the which-based variant stored with
src/core/step-tracker.ts, lines 172-187).  The outcome of the path lookup
`await which(toolName)` is injected as `whichResult`; the source try/catch
around the lookup and the `complete` call is the middle match, and the
`start` call sits outside it, as in the source. -/
def checkToolForTracker (toolName installUrl : String) (tracker : StepTracker)
    (whichResult : Except String String) : Except String (StepTracker × Bool) :=
  match tracker.start toolName "checking" with
  | Except.error e => Except.error e
  | Except.ok (t1, _) =>
    let tryBody : Except String (StepTracker × Bool) :=
      match whichResult with
      | Except.error e => Except.error e
      | Except.ok _ =>
        match t1.complete toolName "found" with
        | Except.error e => Except.error e
        | Except.ok (t2, _) => Except.ok (t2, true)
    match tryBody with
    | Except.ok r => Except.ok r
    | Except.error _ =>
      match StepTracker.error t1 toolName ("not found - " ++ installUrl) with
      | Except.error e => Except.error e
      | Except.ok (t2, _) => Except.ok (t2, false)

/-- Iterated registration: a sequence of `add(key, label)` calls applied to a
steps array. -/
def addAll (steps : List Step) (calls : List (String × String)) : List Step :=
  calls.foldl (fun acc c => addSteps acc c.1 c.2) steps

/-- Specification-side description of first-occurrence order: keep each key
the first time it appears, skipping keys already seen. -/
def firstOccAux (seen : List String) : List String → List String
  | [] => []
  | k :: rest =>
    if k ∈ seen then firstOccAux seen rest
    else k :: firstOccAux (k :: seen) rest

/-- Specification-side first-occurrence deduplication of a key sequence. -/
def firstOccurrenceKeys (ks : List String) : List String :=
  firstOccAux [] ks

/-- Reference-level tracker model: in the JavaScript runtime `this.steps`
is an array of references to step objects.  `stepRefs` are indices into
`heap`, which holds the step objects themselves. -/
structure JSTrackerState where
  title : String
  stepRefs : List Nat
  heap : List Step

/-- Step objects as the tracker observes them: each stored reference
dereferenced against the heap. -/
def derefSteps (t : JSTrackerState) : List Step :=
  t.stepRefs.map (fun a => t.heap.getD a default)

/-- Reference-level embedding of `add`: the object literal allocates a fresh
step object and `push` appends a reference to it. -/
def JSTrackerState.add (t : JSTrackerState) (key label : String) : JSTrackerState :=
  if ((derefSteps t).find? (fun s => s.key == key)).isSome then t
  else
    { t with
      stepRefs := t.stepRefs ++ [t.heap.length],
      heap := t.heap ++ [{ key := key, label := label,
                           status := StepStatus.pending, detail := "" }] }

/-- Embedding of `getAllSteps` (StepTracker.ts lines 215-217): the spread
`[...this.steps]` builds a new array holding the same object references. -/
def JSTrackerState.getAllSteps (t : JSTrackerState) : List Nat :=
  t.stepRefs

/-- Field assignment `step.status = st` performed through a reference — the
mutation a caller can apply to an element of the array `getAllSteps`
returned. -/
def writeStatus (heap : List Step) (addr : Nat) (st : StepStatus) : List Step :=
  heap.set addr { heap.getD addr default with status := st }

/-! ### Lemmas about the refresh hook and step lookup -/

theorem maybeRefresh_none : maybeRefresh none = Except.ok 0 := rfl

theorem maybeRefresh_some (f : RefreshCallback) : maybeRefresh (some f) = Except.ok 1 := by
  cases h : f () <;> simp [maybeRefresh, h]

theorem maybeRefresh_isOk (cb : Option RefreshCallback) :
    ∃ n, maybeRefresh cb = Except.ok n := by
  cases cb with
  | none => exact ⟨0, rfl⟩
  | some f => exact ⟨1, maybeRefresh_some f⟩

theorem find?_key_isSome_iff (steps : List Step) (key : String) :
    (steps.find? (fun s => s.key == key)).isSome = true ↔ ∃ s ∈ steps, s.key = key := by
  simp [List.find?_isSome]

/-! ### Lemmas about the steps-array effects of update and add -/

theorem updateSteps_existing (steps : List Step) (key : String) (st : StepStatus)
    (d : String) (h : ∃ s ∈ steps, s.key = key) :
    ∃ pre s post, steps = pre ++ s :: post ∧ (∀ x ∈ pre, x.key ≠ key) ∧ s.key = key ∧
      updateSteps key st d steps =
        pre ++ { s with status := st, detail := if d == "" then s.detail else d } :: post := by
  induction steps with
  | nil => simp at h
  | cons a rest ih =>
    by_cases ha : a.key = key
    · refine ⟨[], a, rest, rfl, by simp, ha, ?_⟩
      simp [updateSteps, ha]
    · obtain ⟨s, hs, hks⟩ := h
      rcases List.mem_cons.mp hs with h1 | h1
      · exact absurd (h1 ▸ hks) ha
      · obtain ⟨pre, s2, post, hdec, hpre, hk, hupd⟩ := ih ⟨s, h1, hks⟩
        have hb : (a.key == key) = false := beq_eq_false_iff_ne.mpr ha
        refine ⟨a :: pre, s2, post, by rw [List.cons_append, ← hdec], ?_, hk, ?_⟩
        · intro x hx
          rcases List.mem_cons.mp hx with hx1 | hx1
          · exact hx1 ▸ ha
          · exact hpre x hx1
        · simp only [updateSteps, hb, Bool.false_eq_true, if_false, hupd,
            List.cons_append]

theorem updateSteps_not_found (steps : List Step) (key : String) (st : StepStatus)
    (d : String) (h : ∀ s ∈ steps, s.key ≠ key) :
    updateSteps key st d steps =
      steps ++ [{ key := key, label := key, status := st, detail := d }] := by
  induction steps with
  | nil => rfl
  | cons a rest ih =>
    have hb : (a.key == key) = false :=
      beq_eq_false_iff_ne.mpr (h a (List.mem_cons_self a rest))
    simp only [updateSteps, hb, Bool.false_eq_true, if_false, List.cons_append]
    rw [ih (fun s hs => h s (List.mem_cons_of_mem a hs))]

theorem findStep_updateSteps (steps : List Step) (key : String) (st : StepStatus)
    (d : String) (hd : d ≠ "") :
    ∃ s, findStep (updateSteps key st d steps) key = some s ∧
      s.status = st ∧ s.detail = d := by
  induction steps with
  | nil =>
    exact ⟨{ key := key, label := key, status := st, detail := d },
      by simp [findStep, updateSteps], rfl, rfl⟩
  | cons a rest ih =>
    by_cases ha : a.key = key
    · have hb : (a.key == key) = true := beq_iff_eq.mpr ha
      have hdb : (d == "") = false := beq_eq_false_iff_ne.mpr hd
      refine ⟨{ a with status := st, detail := if d == "" then a.detail else d },
        ?_, rfl, by simp [hdb]⟩
      simp [findStep, updateSteps, hb]
    · have hb : (a.key == key) = false := beq_eq_false_iff_ne.mpr ha
      obtain ⟨s, hfind, hst, hdt⟩ := ih
      refine ⟨s, ?_, hst, hdt⟩
      simp only [findStep, updateSteps, hb, Bool.false_eq_true, if_false] at hfind ⊢
      rw [List.find?_cons_of_neg _ (by simp [hb])]
      exact hfind

theorem addSteps_existing (steps : List Step) (key label : String)
    (h : ∃ s ∈ steps, s.key = key) : addSteps steps key label = steps := by
  have hb : (steps.find? (fun s => s.key == key)).isSome = true :=
    (find?_key_isSome_iff steps key).mpr h
  simp [addSteps, hb]

theorem addSteps_not_found (steps : List Step) (key label : String)
    (h : ∀ s ∈ steps, s.key ≠ key) :
    addSteps steps key label =
      steps ++ [{ key := key, label := label, status := StepStatus.pending, detail := "" }] := by
  have hb : (steps.find? (fun s => s.key == key)).isSome = false := by
    rw [Bool.eq_false_iff]
    intro hc
    obtain ⟨s, hs, hk⟩ := (find?_key_isSome_iff steps key).mp hc
    exact h s hs hk
  simp [addSteps, hb]

/-! ### The tracker operations always return normally -/

theorem update_ok (t : StepTracker) (key : String) (st : StepStatus) (d : String) :
    ∃ n, t.update key st d =
      Except.ok ({ t with steps := updateSteps key st d t.steps }, n) := by
  obtain ⟨n, hn⟩ := maybeRefresh_isOk t.refreshCallback
  exact ⟨n, by simp [StepTracker.update, hn]⟩

theorem add_ok (t : StepTracker) (key label : String) :
    ∃ n, t.add key label =
      Except.ok ({ t with steps := addSteps t.steps key label }, n) := by
  by_cases hb : (t.steps.find? (fun s => s.key == key)).isSome = true
  · exact ⟨0, by simp [StepTracker.add, addSteps, hb]⟩
  · obtain ⟨n, hn⟩ := maybeRefresh_isOk t.refreshCallback
    have hb2 : (t.steps.find? (fun s => s.key == key)).isSome = false :=
      Bool.eq_false_iff.mpr hb
    exact ⟨n, by simp [StepTracker.add, addSteps, hb2, hn]⟩

theorem clear_ok (t : StepTracker) :
    ∃ n, t.clear = Except.ok ({ t with steps := [] }, n) := by
  obtain ⟨n, hn⟩ := maybeRefresh_isOk t.refreshCallback
  exact ⟨n, by simp [StepTracker.clear, hn]⟩

theorem setTitle_ok (t : StepTracker) (title : String) :
    ∃ n, t.setTitle title = Except.ok ({ t with title := title }, n) := by
  obtain ⟨n, hn⟩ := maybeRefresh_isOk t.refreshCallback
  exact ⟨n, by simp [StepTracker.setTitle, hn]⟩

/-! ### Lemmas about iterated registration -/

theorem firstOccAux_congr (ks : List String) (seen1 seen2 : List String)
    (h : ∀ x, x ∈ seen1 ↔ x ∈ seen2) : firstOccAux seen1 ks = firstOccAux seen2 ks := by
  induction ks generalizing seen1 seen2 with
  | nil => rfl
  | cons k rest ih =>
    by_cases hk : k ∈ seen1
    · rw [firstOccAux, firstOccAux, if_pos hk, if_pos ((h k).mp hk)]
      exact ih seen1 seen2 h
    · rw [firstOccAux, firstOccAux, if_neg hk, if_neg (fun hc => hk ((h k).mpr hc))]
      refine congrArg (k :: ·) (ih (k :: seen1) (k :: seen2) ?_)
      intro x
      simp [h x]

theorem addAll_cons (steps : List Step) (c : String × String)
    (rest : List (String × String)) :
    addAll steps (c :: rest) = addAll (addSteps steps c.1 c.2) rest := rfl

theorem addAll_keys (calls : List (String × String)) (steps : List Step) :
    (addAll steps calls).map Step.key =
      steps.map Step.key ++ firstOccAux (steps.map Step.key) (calls.map Prod.fst) := by
  induction calls generalizing steps with
  | nil => simp [addAll, firstOccAux]
  | cons c rest ih =>
    rw [addAll_cons]
    by_cases hc : ∃ s ∈ steps, s.key = c.1
    · have h1 : addSteps steps c.1 c.2 = steps := addSteps_existing _ _ _ hc
      have hmem : c.1 ∈ steps.map Step.key := by
        obtain ⟨s, hs, hk⟩ := hc
        exact hk ▸ List.mem_map_of_mem Step.key hs
      rw [h1, ih steps, List.map_cons]
      simp only [firstOccAux]
      rw [if_pos hmem]
    · push_neg at hc
      have h1 := addSteps_not_found steps c.1 c.2 hc
      have hmem : c.1 ∉ steps.map Step.key := by
        intro hm
        obtain ⟨s, hs, hk⟩ := List.mem_map.mp hm
        exact hc s hs hk
      rw [h1, ih, List.map_cons]
      simp only [firstOccAux]
      rw [if_neg hmem, List.map_append]
      simp only [List.map_cons, List.map_nil]
      rw [firstOccAux_congr (rest.map Prod.fst) (steps.map Step.key ++ [c.1])
          (c.1 :: steps.map Step.key) (fun x => by simp [or_comm]),
        List.append_assoc]
      rfl

theorem addAll_fields (calls : List (String × String)) (steps : List Step)
    (h : ∀ s ∈ steps, s.status = StepStatus.pending ∧ s.detail = "") :
    ∀ s ∈ addAll steps calls, s.status = StepStatus.pending ∧ s.detail = "" := by
  induction calls generalizing steps with
  | nil => exact h
  | cons c rest ih =>
    rw [addAll_cons]
    refine ih (addSteps steps c.1 c.2) ?_
    intro s hs
    unfold addSteps at hs
    by_cases hb : (steps.find? (fun x => x.key == c.1)).isSome = true
    · rw [if_pos hb] at hs
      exact h s hs
    · rw [if_neg hb] at hs
      rcases List.mem_append.mp hs with h1 | h1
      · exact h s h1
      · rw [List.mem_singleton.mp h1]
        exact ⟨rfl, rfl⟩

/-! ### Lemmas about first-occurrence replacement and render -/

theorem replaceFirstAux_of_isPrefix (pat repl tail : List Char) (hp : pat ≠ []) :
    replaceFirstAux pat repl (pat ++ tail) = repl ++ tail := by
  cases pat with
  | nil => exact absurd rfl hp
  | cons p ps =>
    have hpre : (p :: ps).isPrefixOf (p :: (ps ++ tail)) = true :=
      List.isPrefixOf_iff_prefix.mpr ⟨tail, by simp⟩
    simp only [List.cons_append, replaceFirstAux, List.append_eq]
    rw [if_pos hpre]
    congr 1
    show List.drop (p :: ps).length ((p :: ps) ++ tail) = tail
    exact List.drop_left _ _

theorem replaceFirst_of_prefix (pat repl r : String) (hp : pat ≠ "") :
    replaceFirst (pat ++ r) pat repl = repl ++ r := by
  have hd : pat.data ≠ [] := by
    intro hc
    apply hp
    cases pat with
    | mk d =>
      simp only at hc
      rw [hc]
  unfold replaceFirst
  rw [String.data_append, replaceFirstAux_of_isPrefix _ _ _ hd]
  cases repl with
  | mk a =>
    cases r with
    | mk b => rfl

theorem renderLines_nil (t : StepTracker) (h : t.steps = []) :
    renderLines t = ["\x1b[36m" ++ t.title ++ "\x1b[0m"] := by
  unfold renderLines renderLinesRaw
  rw [h]
  simp

theorem renderLines_concat (t : StepTracker) (l : List Step) (a : Step)
    (h : t.steps = l ++ [a]) :
    renderLines t =
      (("\x1b[36m" ++ t.title ++ "\x1b[0m")
        :: l.map (fun s => "├── " ++ renderStepLine s))
        ++ ["└── " ++ renderStepLine a] := by
  have hraw : renderLinesRaw t =
      (("\x1b[36m" ++ t.title ++ "\x1b[0m")
        :: l.map (fun s => "├── " ++ renderStepLine s))
        ++ ["├── " ++ renderStepLine a] := by
    unfold renderLinesRaw
    rw [h, List.map_append, List.map_cons, List.map_nil, ← List.cons_append]
  have e1 : ("├── " : String) = "├──" ++ " " := by decide
  have e2 : ("└──" : String) ++ " " = "└── " := by decide
  have e3 : replaceFirst ("├── " ++ renderStepLine a) "├──" "└──"
      = "└── " ++ renderStepLine a := by
    rw [e1, String.append_assoc, replaceFirst_of_prefix _ _ _ (by decide),
      ← String.append_assoc, e2]
  unfold renderLines
  rw [hraw, if_pos (by simp), List.dropLast_concat, List.getLast?_concat,
    Option.getD_some, e3]

theorem renderLines_length (t : StepTracker) :
    (renderLines t).length = 1 + t.steps.length := by
  rcases List.eq_nil_or_concat t.steps with h | ⟨l, a, h⟩
  · rw [renderLines_nil t h, h]
    rfl
  · rw [List.concat_eq_append] at h
    rw [renderLines_concat t l a h, h]
    simp [Nat.add_comm]

theorem renderLines_head (t : StepTracker) :
    (renderLines t).headD "" = "\x1b[36m" ++ t.title ++ "\x1b[0m" := by
  rcases List.eq_nil_or_concat t.steps with h | ⟨l, a, h⟩
  · rw [renderLines_nil t h]
    rfl
  · rw [List.concat_eq_append] at h
    rw [renderLines_concat t l a h]
    rfl

/-! ### Auxiliary facts -/

theorem append_ne_empty_left (a b : String) (ha : a ≠ "") : a ++ b ≠ "" := by
  intro hc
  apply ha
  cases a with
  | mk d =>
    cases b with
    | mk e =>
      have hde : d ++ e = [] := congrArg String.data hc
      rw [(List.append_eq_nil.mp hde).1]

theorem nodup_append_singleton {α : Type} (l : List α) (a : α) (h : l.Nodup)
    (ha : a ∉ l) : (l ++ [a]).Nodup := by
  rw [List.nodup_append]
  exact ⟨h, List.nodup_singleton a,
    fun x hx hxa => ha ((List.mem_singleton.mp hxa) ▸ hx)⟩

theorem renderStepLine_congr (x y : Step) (hst : x.status = y.status)
    (hl : x.label = y.label) (hdt : jsTrim x.detail = jsTrim y.detail) :
    renderStepLine x = renderStepLine y := by
  unfold renderStepLine
  rw [hst, hl, hdt]

/-! ### Concrete fixtures used by the witnesses -/

def stepGit : Step :=
  { key := "git", label := "Git version control",
    status := StepStatus.pending, detail := "old" }

def throwingCallback : RefreshCallback := fun _ => Except.error "render failed"

def trackerGit : StepTracker :=
  { title := "Check installed tools", steps := [stepGit],
    refreshCallback := some throwingCallback }

def jsEmpty : JSTrackerState :=
  { title := "Check installed tools", stepRefs := [], heap := [] }

def jsT1 : JSTrackerState := jsEmpty.add "git" "Git version control"

def jsT2 : JSTrackerState := jsT1.add "claude" "Claude Code CLI"

/-! ### The claims -/

/-- C1: on a steps array containing a step with the given key, the update
primitive — to which start/complete/error/skip delegate — rewrites exactly
the first step carrying that key: its status becomes the given status, and
its detail is replaced by the given detail precisely when that detail is
non-empty, an empty detail argument leaving the stored detail unchanged;
every other step is untouched, and the operation returns normally with the
pure steps-array effect. -/
theorem update_existing_sets_status_and_conditionally_detail
    (steps : List Step) (key : String) (st : StepStatus) (d : String)
    (t : StepTracker) (dd : String)
    (h : ∃ s ∈ steps, s.key = key) :
    (∃ pre s post, steps = pre ++ s :: post ∧ (∀ x ∈ pre, x.key ≠ key) ∧
      s.key = key ∧
      updateSteps key st d steps =
        pre ++ { s with status := st,
                        detail := if d == "" then s.detail else d } :: post) ∧
    t.start key dd = t.update key StepStatus.running dd ∧
    t.complete key dd = t.update key StepStatus.done dd ∧
    StepTracker.error t key dd = t.update key StepStatus.error dd ∧
    t.skip key dd = t.update key StepStatus.skipped dd ∧
    (∃ n, t.update key st d =
      Except.ok ({ t with steps := updateSteps key st d t.steps }, n)) :=
  ⟨updateSteps_existing steps key st d h, rfl, rfl, rfl, rfl, update_ok t key st d⟩

/-- Witness for C1: a concrete one-step tracker, updated with an empty
detail. -/
theorem update_existing_sets_status_and_conditionally_detail_witness :
    (∃ pre s post, [stepGit] = pre ++ s :: post ∧ (∀ x ∈ pre, x.key ≠ "git") ∧
      s.key = "git" ∧
      updateSteps "git" StepStatus.done "" [stepGit] =
        pre ++ { s with status := StepStatus.done,
                        detail := if "" == "" then s.detail else "" } :: post) ∧
    trackerGit.start "git" "x" = trackerGit.update "git" StepStatus.running "x" ∧
    trackerGit.complete "git" "x" = trackerGit.update "git" StepStatus.done "x" ∧
    StepTracker.error trackerGit "git" "x" =
      trackerGit.update "git" StepStatus.error "x" ∧
    trackerGit.skip "git" "x" = trackerGit.update "git" StepStatus.skipped "x" ∧
    (∃ n, trackerGit.update "git" StepStatus.done "" =
      Except.ok ({ trackerGit with
        steps := updateSteps "git" StepStatus.done "" trackerGit.steps }, n)) :=
  update_existing_sets_status_and_conditionally_detail [stepGit] "git"
    StepStatus.done "" trackerGit "x" ⟨stepGit, List.mem_singleton.mpr rfl, rfl⟩

/-- C2: updating a key that no step carries appends exactly one new step at
the end of the sequence, with key and label both equal to that key, the
given status, and the given detail. -/
theorem update_missing_appends_new_step
    (steps : List Step) (key : String) (st : StepStatus) (d : String)
    (h : ∀ s ∈ steps, s.key ≠ key) :
    updateSteps key st d steps =
      steps ++ [{ key := key, label := key, status := st, detail := d }] :=
  updateSteps_not_found steps key st d h

/-- Witness for C2: updating a fresh key on a one-step tracker. -/
theorem update_missing_appends_new_step_witness :
    updateSteps "claude" StepStatus.running "starting" [stepGit] =
      [stepGit] ++ [{ key := "claude", label := "claude",
                      status := StepStatus.running, detail := "starting" }] :=
  update_missing_appends_new_step [stepGit] "claude" StepStatus.running
    "starting" (by
      intro s hs
      rw [List.mem_singleton.mp hs]
      decide)

/-- C3: registration is idempotent and ordered by first occurrence: any
sequence of add calls yields one step per distinct key in first-occurrence
order, all pending with empty detail, and an add on an already-present key
leaves the steps array completely unchanged. -/
theorem add_idempotent_first_occurrence_order
    (calls : List (String × String)) (steps : List Step) (key label : String)
    (h : ∃ s ∈ steps, s.key = key) :
    (addAll [] calls).map Step.key = firstOccurrenceKeys (calls.map Prod.fst) ∧
    (∀ s ∈ addAll [] calls, s.status = StepStatus.pending ∧ s.detail = "") ∧
    addSteps steps key label = steps := by
  refine ⟨?_, addAll_fields calls [] (by simp), addSteps_existing steps key label h⟩
  have hk := addAll_keys calls []
  simpa [firstOccurrenceKeys] using hk

/-- Witness for C3: a call sequence with a repeated key, and a repeated add
on a concrete tracker. -/
theorem add_idempotent_first_occurrence_order_witness :
    (addAll [] [("git", "Git"), ("claude", "Claude"), ("git", "again")]).map
        Step.key =
      firstOccurrenceKeys
        ([("git", "Git"), ("claude", "Claude"), ("git", "again")].map Prod.fst) ∧
    (∀ s ∈ addAll [] [("git", "Git"), ("claude", "Claude"), ("git", "again")],
      s.status = StepStatus.pending ∧ s.detail = "") ∧
    addSteps [stepGit] "git" "Git again" = [stepGit] :=
  add_idempotent_first_occurrence_order
    [("git", "Git"), ("claude", "Claude"), ("git", "again")] [stepGit] "git"
    "Git again" ⟨stepGit, List.mem_singleton.mpr rfl, rfl⟩

/-- C4: with any attached refresh callback — including one that throws on
every invocation — every state-mutating operation returns normally (the
callback's exception never propagates), its step state is exactly the pure
steps-array effect, and it matches what a tracker without any callback
produces. -/
theorem mutators_tolerate_throwing_callback
    (t : StepTracker) (key label d title2 : String) (st : StepStatus) :
    (∃ n, t.add key label =
      Except.ok ({ t with steps := addSteps t.steps key label }, n)) ∧
    (∃ n, t.start key d =
      Except.ok ({ t with steps := updateSteps key StepStatus.running d t.steps }, n)) ∧
    (∃ n, t.complete key d =
      Except.ok ({ t with steps := updateSteps key StepStatus.done d t.steps }, n)) ∧
    (∃ n, StepTracker.error t key d =
      Except.ok ({ t with steps := updateSteps key StepStatus.error d t.steps }, n)) ∧
    (∃ n, t.skip key d =
      Except.ok ({ t with steps := updateSteps key StepStatus.skipped d t.steps }, n)) ∧
    (∃ n, t.clear = Except.ok ({ t with steps := [] }, n)) ∧
    (∃ n, t.setTitle title2 = Except.ok ({ t with title := title2 }, n)) ∧
    stepsOf (t.add key label) =
      stepsOf (StepTracker.add { t with refreshCallback := none } key label) ∧
    stepsOf (t.update key st d) =
      stepsOf (StepTracker.update { t with refreshCallback := none } key st d) ∧
    stepsOf t.clear = stepsOf (StepTracker.clear { t with refreshCallback := none }) := by
  obtain ⟨n1, h1⟩ := add_ok t key label
  obtain ⟨m1, g1⟩ := add_ok { t with refreshCallback := none } key label
  obtain ⟨n2, h2⟩ := update_ok t key st d
  obtain ⟨m2, g2⟩ := update_ok { t with refreshCallback := none } key st d
  obtain ⟨n3, h3⟩ := clear_ok t
  obtain ⟨m3, g3⟩ := clear_ok { t with refreshCallback := none }
  refine ⟨⟨n1, h1⟩, update_ok t key StepStatus.running d,
    update_ok t key StepStatus.done d, update_ok t key StepStatus.error d,
    update_ok t key StepStatus.skipped d, ⟨n3, h3⟩, setTitle_ok t title2,
    ?_, ?_, ?_⟩
  · rw [h1, g1]
    simp [stepsOf, Except.toOption]
  · rw [h2, g2]
    simp [stepsOf, Except.toOption]
  · rw [h3, g3]
    simp [stepsOf, Except.toOption]

/-- C5: the tool check never throws past its own boundary: with any lookup
outcome it returns normally; a successful lookup leaves the tool's step done
with detail "found" and yields true, and a failed lookup leaves the step in
error status with detail "not found - " followed by the install hint and
yields false. -/
theorem checkToolForTracker_reports_and_never_throws
    (toolName installUrl : String) (t : StepTracker) :
    (∀ path : String, ∃ t2,
      checkToolForTracker toolName installUrl t (Except.ok path) =
        Except.ok (t2, true) ∧
      ∃ s, findStep t2.steps toolName = some s ∧
        s.status = StepStatus.done ∧ s.detail = "found") ∧
    (∀ e : String, ∃ t2,
      checkToolForTracker toolName installUrl t (Except.error e) =
        Except.ok (t2, false) ∧
      ∃ s, findStep t2.steps toolName = some s ∧
        s.status = StepStatus.error ∧
        s.detail = "not found - " ++ installUrl) := by
  constructor
  · intro path
    obtain ⟨n1, h1⟩ := update_ok t toolName StepStatus.running "checking"
    obtain ⟨n2, h2⟩ := update_ok
      { t with steps := updateSteps toolName StepStatus.running "checking" t.steps }
      toolName StepStatus.done "found"
    have hrun : checkToolForTracker toolName installUrl t (Except.ok path) =
        Except.ok
          ({ t with
              steps := updateSteps toolName StepStatus.done "found"
                         (updateSteps toolName StepStatus.running "checking" t.steps) },
            true) := by
      simp only [checkToolForTracker, StepTracker.start, StepTracker.complete, h1, h2]
    exact ⟨_, hrun,
      findStep_updateSteps _ toolName StepStatus.done "found" (by decide)⟩
  · intro e
    obtain ⟨n1, h1⟩ := update_ok t toolName StepStatus.running "checking"
    obtain ⟨n2, h2⟩ := update_ok
      { t with steps := updateSteps toolName StepStatus.running "checking" t.steps }
      toolName StepStatus.error ("not found - " ++ installUrl)
    have hrun : checkToolForTracker toolName installUrl t (Except.error e) =
        Except.ok
          ({ t with
              steps := updateSteps toolName StepStatus.error
                         ("not found - " ++ installUrl)
                         (updateSteps toolName StepStatus.running "checking" t.steps) },
            false) := by
      simp only [checkToolForTracker, StepTracker.start, StepTracker.error, h1, h2]
    exact ⟨_, hrun,
      findStep_updateSteps _ toolName StepStatus.error _
        (append_ne_empty_left "not found - " installUrl (by decide))⟩

/-- C6: key uniqueness and order are invariant: add and update preserve
pairwise-distinct keys; a status transition on a present key leaves the key
sequence (hence relative order) exactly unchanged, and an update on an
absent key only appends, never reordering or duplicating. -/
theorem step_keys_nodup_and_order_preserved
    (steps : List Step) (key label : String) (st : StepStatus) (d : String)
    (h : (steps.map Step.key).Nodup) :
    ((addSteps steps key label).map Step.key).Nodup ∧
    ((updateSteps key st d steps).map Step.key).Nodup ∧
    ((∃ s ∈ steps, s.key = key) →
      (updateSteps key st d steps).map Step.key = steps.map Step.key) ∧
    ((∀ s ∈ steps, s.key ≠ key) →
      (updateSteps key st d steps).map Step.key = steps.map Step.key ++ [key]) := by
  have hex : (∃ s ∈ steps, s.key = key) →
      (updateSteps key st d steps).map Step.key = steps.map Step.key := by
    intro hexist
    obtain ⟨pre, s, post, hdec, hpre, hk, hupd⟩ :=
      updateSteps_existing steps key st d hexist
    rw [hupd, hdec]
    simp
  have habs : (∀ s ∈ steps, s.key ≠ key) →
      (updateSteps key st d steps).map Step.key = steps.map Step.key ++ [key] := by
    intro habsent
    rw [updateSteps_not_found steps key st d habsent]
    simp
  have hnotin : (∀ s ∈ steps, s.key ≠ key) → key ∉ steps.map Step.key := by
    intro habsent hm
    obtain ⟨s, hs, hk⟩ := List.mem_map.mp hm
    exact habsent s hs hk
  refine ⟨?_, ?_, hex, habs⟩
  · by_cases hc : ∃ s ∈ steps, s.key = key
    · rw [addSteps_existing steps key label hc]
      exact h
    · push_neg at hc
      rw [addSteps_not_found steps key label hc, List.map_append]
      simp only [List.map_cons, List.map_nil]
      exact nodup_append_singleton _ _ h (hnotin hc)
  · by_cases hc : ∃ s ∈ steps, s.key = key
    · rw [hex hc]
      exact h
    · push_neg at hc
      rw [habs hc]
      exact nodup_append_singleton _ _ h (hnotin hc)

/-- Witness for C6 on a concrete one-step tracker and a fresh key. -/
theorem step_keys_nodup_and_order_preserved_witness :
    ((addSteps [stepGit] "claude" "Claude Code CLI").map Step.key).Nodup ∧
    ((updateSteps "claude" StepStatus.running "" [stepGit]).map Step.key).Nodup ∧
    ((∃ s ∈ [stepGit], s.key = "claude") →
      (updateSteps "claude" StepStatus.running "" [stepGit]).map Step.key =
        [stepGit].map Step.key) ∧
    ((∀ s ∈ [stepGit], s.key ≠ "claude") →
      (updateSteps "claude" StepStatus.running "" [stepGit]).map Step.key =
        [stepGit].map Step.key ++ ["claude"]) :=
  step_keys_nodup_and_order_preserved [stepGit] "claude" "Claude Code CLI"
    StepStatus.running "" (by decide)

/-- C7 counterexample: getAllSteps is only an array-level copy — the spread
`[...this.steps]` copies the array of references, not the step objects — so
assigning a field of a step element obtained from getAllSteps's return value
does change the tracker's observed step sequence. -/
theorem getAllSteps_shallow_copy_counterexample :
    derefSteps
        { jsT1 with
            heap := writeStatus jsT1.heap
                      ((JSTrackerState.getAllSteps jsT1).getD 0 0)
                      StepStatus.done }
      ≠ derefSteps jsT1 := by decide

/-- C7 amended: getAllSteps returns a fresh array sharing its step-object
references with the tracker: the returned list of references equals the
internal one (so array-level surgery on the copy cannot touch the tracker),
while writing a status through the reference at position i updates exactly
position i of the tracker's observed step sequence. -/
theorem getAllSteps_array_copy_elements_aliased
    (t : JSTrackerState) (i : Nat) (st : StepStatus)
    (hi : i < t.stepRefs.length)
    (hvalid : ∀ a ∈ t.stepRefs, a < t.heap.length)
    (hnd : t.stepRefs.Nodup) :
    JSTrackerState.getAllSteps t = t.stepRefs ∧
    derefSteps
        { t with
            heap := writeStatus t.heap
                      ((JSTrackerState.getAllSteps t).getD i 0) st }
      = (derefSteps t).set i
          { (derefSteps t).getD i default with status := st } := by
  refine ⟨rfl, ?_⟩
  have haddr : (JSTrackerState.getAllSteps t).getD i 0 = t.stepRefs[i] :=
    List.getD_eq_getElem t.stepRefs 0 hi
  have hAi : t.stepRefs[i] < t.heap.length := hvalid _ (List.getElem_mem hi)
  rw [haddr]
  apply List.ext_getElem
  · simp [derefSteps, writeStatus]
  · intro j h1 h2
    have hjlen : j < t.stepRefs.length := by
      simpa [derefSteps, writeStatus] using h1
    have hAj : t.stepRefs[j] < t.heap.length := hvalid _ (List.getElem_mem hjlen)
    have hmapD : (t.stepRefs.map (fun a => t.heap.getD a default)).getD j default
        = t.heap.getD t.stepRefs[j] default := by
      rw [List.getD_eq_getElem _ _ (by simpa using hjlen), List.getElem_map]
    by_cases hji : j = i
    · subst hji
      simp only [derefSteps, writeStatus, List.getElem_map, List.getElem_set_self]
      rw [List.getD_eq_getElem _ _ (by rw [List.length_set]; exact hAj),
        List.getElem_set_self, hmapD]
    · have hne : t.stepRefs[i] ≠ t.stepRefs[j] := by
        intro hc
        exact hji ((hnd.getElem_inj_iff.mp hc).symm)
      simp only [derefSteps, writeStatus, List.getElem_map]
      rw [List.getElem_set_ne (fun hc => hji hc.symm)]
      rw [List.getD_eq_getElem _ _ (by rw [List.length_set]; exact hAj),
        List.getElem_set_ne hne, List.getElem_map,
        List.getD_eq_getElem _ _ hAj]

/-- Witness for C7's amended statement on a concrete two-step tracker. -/
theorem getAllSteps_array_copy_elements_aliased_witness :
    JSTrackerState.getAllSteps jsT2 = jsT2.stepRefs ∧
    derefSteps
        { jsT2 with
            heap := writeStatus jsT2.heap
                      ((JSTrackerState.getAllSteps jsT2).getD 0 0)
                      StepStatus.done }
      = (derefSteps jsT2).set 0
          { (derefSteps jsT2).getD 0 default with status := StepStatus.done } :=
  getAllSteps_array_copy_elements_aliased jsT2 0 StepStatus.done
    (by decide) (by decide) (by decide)

/-- C8: render joins exactly 1 + n lines with newlines — a title-derived
first line, then one line per step in insertion order; with at least one
step, every step line but the last starts with the branch connector while
the last starts with the distinct terminator connector. -/
theorem render_line_count_and_connectors
    (t0 t : StepTracker) (l : List Step) (a : Step) (h : t.steps = l ++ [a]) :
    (renderLines t0).length = 1 + t0.steps.length ∧
    (renderLines t0).headD "" = "\x1b[36m" ++ t0.title ++ "\x1b[0m" ∧
    StepTracker.render t0 = String.intercalate "\n" (renderLines t0) ∧
    renderLines t =
      (("\x1b[36m" ++ t.title ++ "\x1b[0m")
        :: l.map (fun s => "├── " ++ renderStepLine s))
        ++ ["└── " ++ renderStepLine a] ∧
    ("└── " : String) ≠ "├── " :=
  ⟨renderLines_length t0, renderLines_head t0, rfl, renderLines_concat t l a h,
    by decide⟩

/-- Witness for C8 on a concrete one-step tracker. -/
theorem render_line_count_and_connectors_witness :
    (renderLines trackerGit).length = 1 + trackerGit.steps.length ∧
    (renderLines trackerGit).headD "" =
      "\x1b[36m" ++ trackerGit.title ++ "\x1b[0m" ∧
    StepTracker.render trackerGit = String.intercalate "\n" (renderLines trackerGit) ∧
    renderLines trackerGit =
      (("\x1b[36m" ++ trackerGit.title ++ "\x1b[0m")
        :: ([] : List Step).map (fun s => "├── " ++ renderStepLine s))
        ++ ["└── " ++ renderStepLine stepGit] ∧
    ("└── " : String) ≠ "├── " :=
  render_line_count_and_connectors trackerGit trackerGit [] stepGit rfl

/-- C9: a non-empty all-whitespace detail (for example a single space) does
replace the stored detail — only exact emptiness preserves it — yet the
rendered line for that step carries no parenthesized detail, because render
trims the detail before testing it for emptiness. -/
theorem whitespace_detail_replaced_but_hidden
    (steps : List Step) (key : String) (st : StepStatus) (d : String)
    (hd : d ≠ "") (hws : jsTrim d = "") (h : ∃ s ∈ steps, s.key = key) :
    ∃ pre s post, steps = pre ++ s :: post ∧ (∀ x ∈ pre, x.key ≠ key) ∧
      s.key = key ∧
      updateSteps key st d steps =
        pre ++ { s with status := st, detail := d } :: post ∧
      renderStepLine { s with status := st, detail := d }
        = renderStepLine { s with status := st, detail := "" } := by
  obtain ⟨pre, s, post, hdec, hpre, hk, hupd⟩ :=
    updateSteps_existing steps key st d h
  have hdb : (d == "") = false := beq_eq_false_iff_ne.mpr hd
  simp only [hdb, Bool.false_eq_true, if_false] at hupd
  refine ⟨pre, s, post, hdec, hpre, hk, hupd, ?_⟩
  exact renderStepLine_congr _ _ rfl rfl
    (by show jsTrim d = jsTrim ""; rw [hws]; decide)

/-- Witness for C9: updating with the single-space detail. -/
theorem whitespace_detail_replaced_but_hidden_witness :
    ∃ pre s post, [stepGit] = pre ++ s :: post ∧ (∀ x ∈ pre, x.key ≠ "git") ∧
      s.key = "git" ∧
      updateSteps "git" StepStatus.running " " [stepGit] =
        pre ++ { s with status := StepStatus.running, detail := " " } :: post ∧
      renderStepLine { s with status := StepStatus.running, detail := " " }
        = renderStepLine { s with status := StepStatus.running, detail := "" } :=
  whitespace_detail_replaced_but_hidden [stepGit] "git" StepStatus.running " "
    (by decide) (by decide) ⟨stepGit, List.mem_singleton.mpr rfl, rfl⟩

/-- C10: with a refresh callback attached, an add whose key is already
present neither changes the tracker nor invokes the callback (zero
invocations), while an add that actually appends invokes it exactly once —
the callback counts real state changes, not call attempts. -/
theorem add_existing_key_skips_refresh
    (t : StepTracker) (key label : String) (cb : RefreshCallback)
    (hcb : t.refreshCallback = some cb) :
    ((∃ s ∈ t.steps, s.key = key) → t.add key label = Except.ok (t, 0)) ∧
    ((∀ s ∈ t.steps, s.key ≠ key) →
      ∃ t2, t.add key label = Except.ok (t2, 1)) := by
  constructor
  · intro h
    have hb : (t.steps.find? (fun s => s.key == key)).isSome = true :=
      (find?_key_isSome_iff t.steps key).mpr h
    simp [StepTracker.add, hb]
  · intro h
    have hb : (t.steps.find? (fun s => s.key == key)).isSome = false := by
      rw [Bool.eq_false_iff]
      intro hc
      obtain ⟨s, hs, hk⟩ := (find?_key_isSome_iff t.steps key).mp hc
      exact h s hs hk
    have hadd : t.add key label =
        Except.ok
          ({ t with
              steps := t.steps ++
                         [{ key := key, label := label,
                            status := StepStatus.pending, detail := "" }] },
            1) := by
      simp [StepTracker.add, hb, hcb, maybeRefresh_some]
    exact ⟨_, hadd⟩

/-- Witness for C10: a tracker whose callback always throws, with the key
already registered. -/
theorem add_existing_key_skips_refresh_witness :
    trackerGit.add "git" "Git" = Except.ok (trackerGit, 0) :=
  (add_existing_key_skips_refresh trackerGit "git" "Git" throwingCallback
    rfl).1 ⟨stepGit, List.mem_singleton.mpr rfl, rfl⟩

end SpecKit
